import Mathlib

/-!
Verification of the DXIL shader-library linker core (`lib/HLSL/DxilLinker.cpp`).

The development shallowly embeds the data model and operations of the linker:
the per-library index (`DxilLib`), the symbol registry and attachment logic
(`DxilLinkerImpl::AttachLib` / `DetachAll`), the link job
(`DxilLinkJob::Link`, `DxilLinkJob::AddResource`), and the transitive-closure
walk of `DxilLinkerImpl::Link`.  Pointer-keyed containers of the C++ code are
modelled by association lists keyed by name or by a numeric identity; the
finalization passes of `RunPreparePass` and the LLVM collaborators are outside
the modelled core, so the output module here is the module as built just
before the pass pipeline runs.
-/

set_option maxRecDepth 4000

namespace DxilLink

/-- Association-list lookup keyed by string, first match wins.  Models lookup
in `llvm::StringMap`. -/
def lookupS {β : Type} (k : String) : List (String × β) → Option β
  | [] => none
  | (a, b) :: t => if a = k then some b else lookupS k t

/-- Remove every entry with the given key.  Models `llvm::StringMap::erase`
(keys are unique in a `StringMap`, so at most one entry is removed). -/
def eraseS {β : Type} (k : String) (l : List (String × β)) : List (String × β) :=
  l.filter (fun p => p.1 ≠ k)

/-- Insert a string into a list if not already present.  Models insertion into
a name-keyed map used as a set (`m_dxilFunctions`). -/
def insertU (l : List String) (n : String) : List String :=
  if n ∈ l then l else l ++ [n]

/-- Diagnostic text `kUndefFunction` of DxilLinker.cpp. -/
def kUndefFunction : String := "Cannot find definition of function "

/-- Diagnostic text `kRedefineFunction` of DxilLinker.cpp. -/
def kRedefineFunction : String := "Definition already exists for function "

/-- Diagnostic text `kRedefineGlobal` of DxilLinker.cpp. -/
def kRedefineGlobal : String := "Definition already exists for global variable "

/-- Diagnostic text `kInvalidProfile` of DxilLinker.cpp. -/
def kInvalidProfile : String := " is invalid profile to link"

/-- Diagnostic text `kShaderKindMismatch` of DxilLinker.cpp. -/
def kShaderKindMismatch : String :=
  "Profile mismatch between entry function and target profile:"

/-- Diagnostic text `kNoEntryProps` of DxilLinker.cpp. -/
def kNoEntryProps : String := "Cannot find function property for entry function "

/-- Diagnostic text `kRefineResource` of DxilLinker.cpp. -/
def kRefineResource : String := "Resource already exists as "

/-- The four DXIL resource classes (`DXIL::ResourceClass`). -/
inductive ResClass
  | UAV
  | SRV
  | CBuffer
  | Sampler
deriving DecidableEq, Repr

/-- Modelled from the spec: `DxilResourceBase::GetResClassName`, the class
name used in the resource-conflict diagnostic (the spec scenario shows
`Resource already exists as SRV for tex`).  The implementation of
`GetResClassName` is not part of the sources under verification. -/
def ResClass.name : ResClass → String
  | ResClass.UAV => "UAV"
  | ResClass.SRV => "SRV"
  | ResClass.CBuffer => "CBuffer"
  | ResClass.Sampler => "Sampler"

/-- A resource descriptor (`DxilResourceBase`): resource class, global name
(`GetGlobalName`), the type of its backing global symbol
(`GetGlobalSymbol()->getType()`, which determines the element type), and the
class-specific metadata (bind point, register space, shape, ...), collapsed
into one opaque field. -/
structure Resource where
  resClass : ResClass
  globalName : String
  symType : String
  meta : Nat
deriving DecidableEq, Repr

/-- `DxilLinkJob::AddResource`: merge a descriptor into the name-keyed
resource table `m_resourceMap`.  If the global name is present, the stored
descriptor's backing-global type must equal the incoming one; on mismatch the
diagnostic names the incoming descriptor's class and the merge fails.  If the
name is absent the pair (descriptor, new global) is inserted.  Returns
(success, table, emitted diagnostics). -/
def addResource (tbl : List (String × Resource × String)) (res : Resource)
    (gv : String) : Bool × List (String × Resource × String) × List String :=
  match lookupS res.globalName tbl with
  | some p =>
    if res.symType = p.1.symType then (true, tbl, [])
    else (false, tbl,
      [kRefineResource ++ res.resClass.name ++ " for " ++ res.globalName])
  | none => (true, (res.globalName, res, gv) :: tbl, [])

/-- DXIL shader kinds (`DXIL::ShaderKind`), restricted to the constructors the
linker consults. -/
inductive ShaderKind
  | Pixel
  | Vertex
  | Hull
  | Compute
  | Library
  | Invalid
deriving DecidableEq, Repr

/-- Modelled from the spec: `ShaderModel::GetKindName`, the lower-case kind
name used in the profile-mismatch diagnostic (the spec scenario shows
`...ps_6_0 and vertex`).  The implementation of `GetKindName` is not part of
the sources under verification. -/
def ShaderKind.name : ShaderKind → String
  | ShaderKind.Pixel => "pixel"
  | ShaderKind.Vertex => "vertex"
  | ShaderKind.Hull => "hull"
  | ShaderKind.Compute => "compute"
  | ShaderKind.Library => "library"
  | ShaderKind.Invalid => "invalid"

/-- An instruction of a function body, at the granularity the linker
manipulates bodies: a call to a named function, or any other instruction. -/
inductive Instr
  | call (fname : String)
  | other (n : Nat)
deriving DecidableEq, Repr

/-- One global variable referenced by a function (`usedGVs` entry): its
pointer identity `gvId`, its name, and the resource descriptor backing it in
its owning library (`DxilLib::GetResource`), if any. -/
structure GVInfo where
  gvId : Nat
  name : String
  res : Option Resource
deriving DecidableEq, Repr

/-- One function to materialize (`DxilFunctionLinkInfo` paired with its
library, as stored in `m_functionDefs`): its name, the globals it uses, and
whether its library records it as a static initializer
(`DxilLib::IsInitFunc`). -/
structure FuncDef where
  fname : String
  usedGVs : List GVInfo
  isInit : Bool
deriving DecidableEq, Repr

/-- State of the add-global loop of `DxilLinkJob::Link`: names of created
globals (`m_newGlobals`), identities of source globals already mapped (the
`vmap` domain restricted to globals), the merged resource table
(`m_resourceMap`), diagnostics emitted so far, and the `bSuccess` flag. -/
structure GState where
  newGlobals : List String
  vmap : List Nat
  resTbl : List (String × Resource × String)
  diags : List String
  ok : Bool
deriving DecidableEq, Repr

/-- One iteration of the add-global loop of `DxilLinkJob::Link` (lines
506-550): if a new global with this name exists and the source global is
unmapped, a resource-backed global is routed through `AddResource` (mapping
it on success), and a plain global is a redefinition error; otherwise a new
global is created, registered and mapped, and then merged as a resource when
resource-backed. -/
def gstep (st : GState) (g : GVInfo) : GState :=
  if g.name ∈ st.newGlobals then
    if g.gvId ∈ st.vmap then st
    else
      match g.res with
      | some r =>
        let t := addResource st.resTbl r g.name
        if t.1 then { st with resTbl := t.2.1, vmap := g.gvId :: st.vmap }
        else { st with resTbl := t.2.1, diags := st.diags ++ t.2.2, ok := false }
      | none =>
        { st with diags := st.diags ++ [kRedefineGlobal ++ g.name], ok := false }
  else
    let st1 := { st with newGlobals := g.name :: st.newGlobals,
                         vmap := g.gvId :: st.vmap }
    match g.res with
    | some r =>
      let t := addResource st1.resTbl r g.name
      { st1 with resTbl := t.2.1, diags := st1.diags ++ t.2.2,
                 ok := st1.ok && t.1 }
    | none => st1

/-- The globals of all functions to materialize, in processing order (the
outer loop over `m_functionDefs` and the inner loop over `usedGVs`,
flattened). -/
def allGVs (defs : List FuncDef) : List GVInfo :=
  (defs.map FuncDef.usedGVs).flatten

/-- The whole add-global loop of `DxilLinkJob::Link`. -/
def processGlobals (defs : List FuncDef) : GState :=
  (allGVs defs).foldl gstep ⟨[], [], [], [], true⟩

/-- Input of `DxilLinkJob::Link`: the entry name, the entry's function
properties (its shader kind) when present, the target profile, the functions
to materialize, and the entry function's body. -/
structure LinkInput where
  entryName : String
  entryProps : Option ShaderKind
  profile : String
  defs : List FuncDef
  entryBody : List Instr
deriving DecidableEq, Repr

/-- The output module as built by `DxilLinkJob::Link` just before
`RunPreparePass` runs (the pass pipeline is an opaque collaborator). -/
structure OutModule where
  entryName : String
  entryBody : List Instr
  globals : List String
  resTbl : List (String × Resource × String)
deriving DecidableEq, Repr

/-- The calls to materialized static initializers inserted by
`DxilLinkJob::Link` at the first insertion point of the entry function's
entry block, in iteration order over `m_functionDefs`. -/
def initCalls (defs : List FuncDef) : List Instr :=
  (defs.filter (fun d => d.isInit)).map (fun d => Instr.call d.fname)

/-- `DxilLinkJob::Link`: validate the entry properties, the shader kind and
the target profile (each failure emits one diagnostic and returns no module),
then run the add-global loop, aborting with the collected diagnostics if any
global failed, and otherwise return the module with the initializer calls
inserted at the head of the entry block.  `smKind` models the shader-model
registry collaborator `ShaderModel::GetByName(..)->GetKind()`. -/
def linkJob (smKind : String → ShaderKind) (inp : LinkInput) :
    Option OutModule × List String :=
  match inp.entryProps with
  | none => (none, [kNoEntryProps ++ inp.entryName])
  | some k =>
    if k = ShaderKind.Library ∨ k = ShaderKind.Invalid then
      (none, [inp.profile ++ kInvalidProfile])
    else if smKind inp.profile ≠ k then
      (none, [kShaderKindMismatch ++ inp.profile ++ " and " ++ k.name])
    else
      let st := processGlobals inp.defs
      if st.ok then
        (some ⟨inp.entryName, initCalls inp.defs ++ inp.entryBody,
               st.newGlobals, st.resTbl⟩, st.diags)
      else (none, st.diags)

/-- Whether a global name occurs among the globals of a prefix of the
processing order. -/
def seenName (p : List GVInfo) (n : String) : Bool :=
  p.any (fun g => g.name = n)

/-- The descriptor stored in the merged resource table for a resource global
name after a prefix of the processing order: the first descriptor with that
global name. -/
def firstRes (p : List GVInfo) (rn : String) : Option Resource :=
  (p.filterMap GVInfo.res).find? (fun r => r.globalName = rn)

/-- Whether processing one occurrence of a global that is not yet mapped
succeeds (so that the global enters the value map), as a function of the
already-processed prefix: creation always succeeds when the name is fresh
(the create branch maps the global before merging its resource), and a
name collision succeeds exactly for a resource-backed global whose key is
absent from the merged table or whose stored backing type matches. -/
def succAt (p : List GVInfo) (g : GVInfo) : Bool :=
  !(seenName p g.name) ||
    (match g.res with
     | none => false
     | some r =>
       match firstRes p r.globalName with
       | none => true
       | some r0 => r0.symType == r.symType)

/-- Auxiliary recursion for `mappedIn`: scan the trace occurrence by
occurrence, carrying the prefix already scanned. -/
def mappedFrom (g : GVInfo) : List GVInfo → List GVInfo → Bool
  | _, [] => false
  | acc, g0 :: rest =>
    ((g0.gvId == g.gvId) && succAt acc g0) || mappedFrom g (acc ++ [g0]) rest

/-- Whether the global object `g` (identified by its `gvId`) has been mapped
into the value map by some occurrence in the prefix `p`: some occurrence of
the same object succeeded at its position.  This is the spec-side image of
the `vmap.find(GV)` test of DxilLinker.cpp line 513, by which a later
occurrence of an already-materialized global is skipped silently. -/
def mappedIn (p : List GVInfo) (g : GVInfo) : Bool := mappedFrom g [] p

/-- The diagnostic the add-global loop emits for one global occurrence, as a
function of the already-processed prefix: nothing for a global object that an
earlier occurrence already mapped (the vmap skip), a redefinition error for
an unmapped plain global whose name was already created, and a
resource-conflict error for an unmapped resource-backed global whose stored
descriptor has a different backing type. -/
def conflictMsg (p : List GVInfo) (g : GVInfo) : Option String :=
  if mappedIn p g then none
  else
    match g.res with
    | none =>
      if seenName p g.name then some (kRedefineGlobal ++ g.name) else none
    | some r =>
      match firstRes p r.globalName with
      | some r0 =>
        if r0.symType = r.symType then none
        else some (kRefineResource ++ r.resClass.name ++ " for " ++
          r.globalName)
      | none => none

/-- All diagnostics of the add-global loop over a processing order, given the
prefix already processed. -/
def conflictMsgs (p : List GVInfo) : List GVInfo → List String
  | [] => []
  | g :: rest => (conflictMsg p g).toList ++ conflictMsgs (p ++ [g]) rest

/-- Result of the transitive-closure walk of `DxilLinkerImpl::Link`:
the collected function names (`addedFunctionSet`, equivalently the keys of
`m_functionDefs`) and the names of the DXIL operation intrinsics to declare
(`m_dxilFunctions`), or the unresolved-symbol failure, or fuel exhaustion of
the model. -/
inductive ClosureResult
  | ok (defs : List String) (ops : List String)
  | undef (name : String)
  | fuelOut
deriving DecidableEq, Repr

/-- The work-queue discipline of the C++ code: `SmallVector::pop_back_val`
with `emplace_back`, i.e. newly discovered work is taken before older work. -/
def lifoSched (xs ys : List String) : List String := xs ++ ys

/-- The transitive-closure walk of `DxilLinkerImpl::Link` (lines 747-773),
parameterized by the registry `reg` (name to call-set of the link info), the
intrinsic predicate `isOp` (`hlsl::OP::IsDxilOpFunc`, a naming predicate
supplied by the intrinsic-table collaborator), and the queue discipline
`sched` used to combine newly pushed callees with the remaining queue.  Pop a
name: skip it if visited; fail if it does not resolve; otherwise route its
intrinsic callees to the declare set and push the others, and mark it
visited. -/
def closureGo (reg : String → Option (List String)) (isOp : String → Bool)
    (sched : List String → List String → List String) :
    Nat → List String → List String → List String → ClosureResult
  | 0, visited, work, ops =>
    match work with
    | [] => ClosureResult.ok visited ops
    | _ :: _ => ClosureResult.fuelOut
  | fuel + 1, visited, work, ops =>
    match work with
    | [] => ClosureResult.ok visited ops
    | n :: t =>
      if n ∈ visited then closureGo reg isOp sched fuel visited t ops
      else
        match reg n with
        | none => ClosureResult.undef n
        | some cs =>
          closureGo reg isOp sched fuel (n :: visited)
            (sched (cs.filter (fun c => isOp c = false)) t)
            ((cs.filter (fun c => isOp c)).foldl insertU ops)

/-- The closure walk as run by `DxilLinkerImpl::Link`: seeded with the entry
name, empty visited set, LIFO queue. -/
def linkClosure (reg : String → Option (List String)) (isOp : String → Bool)
    (fuel : Nat) (entry : String) : ClosureResult :=
  closureGo reg isOp lifoSched fuel [] [entry] []

/-- Reachability from the entry along call-set edges, where intrinsic callees
are never followed.  This is the specification side of the closure walk. -/
inductive Reachable (reg : String → Option (List String))
    (isOp : String → Bool) (root : String) : String → Prop
  | refl : Reachable reg isOp root root
  | step : ∀ a b cs, Reachable reg isOp root a → reg a = some cs →
      b ∈ cs → isOp b = false → Reachable reg isOp root b

/-- State of `DxilLinkerImpl`: the owned libraries keyed by name, each
carrying its indexed function-name table (`m_LibMap`); the symbol registry
from function name to owning library (`m_functionNameMap`, the link-info of
an entry being determined by the owning library and the name); the attached
set (`m_attachedLibs`); and the diagnostics emitted to the ambient sink. -/
structure LinkerState where
  libMap : List (String × List String)
  registry : List (String × String)
  attached : List String
  diags : List String
deriving DecidableEq, Repr

/-- The insertion loop of `DxilLinkerImpl::AttachLib` (lines 688-697): for
each function name of the library, a collision emits a redefinition
diagnostic and clears the success flag but scanning continues; a fresh name
is inserted mapped to this library. -/
def attachLoop (lib : String) :
    List String → List (String × String) → List String → Bool →
    Bool × List (String × String) × List String
  | [], reg, ds, ok => (ok, reg, ds)
  | n :: rest, reg, ds, ok =>
    match lookupS n reg with
    | some _ => attachLoop lib rest reg (ds ++ [kRedefineFunction ++ n]) false
    | none => attachLoop lib rest ((n, lib) :: reg) ds ok

/-- The rollback loop of `DxilLinkerImpl::AttachLib` (lines 702-713): on
failure, every name of the library whose registry entry is owned by this
library is erased. -/
def rollback (lib : String) :
    List String → List (String × String) → List (String × String)
  | [], reg => reg
  | n :: rest, reg =>
    match lookupS n reg with
    | some l =>
      if l = lib then rollback lib rest (eraseS n reg)
      else rollback lib rest reg
    | none => rollback lib rest reg

/-- `DxilLinkerImpl::AttachLib(DxilLib *)`: fail (silently) if already
attached; otherwise run the insertion loop, and either add the library to the
attached set on success, or roll back the inserted names on failure. -/
def attachLibImpl (st : LinkerState) (lib : String) (tbl : List String) :
    Bool × LinkerState :=
  if lib ∈ st.attached then (false, st)
  else
    let r := attachLoop lib tbl st.registry [] true
    if r.1 then
      (true, { st with registry := r.2.1, attached := lib :: st.attached,
                       diags := st.diags ++ r.2.2 })
    else
      (false, { st with registry := rollback lib tbl r.2.1,
                        diags := st.diags ++ r.2.2 })

/-- `DxilLinkerImpl::AttachLib(StringRef)`: resolve the library by name in
the owner map, failing without a diagnostic on an unknown name. -/
def attachLibByName (st : LinkerState) (name : String) : Bool × LinkerState :=
  match lookupS name st.libMap with
  | none => (false, st)
  | some tbl => attachLibImpl st name tbl

/-- `DxilLinkerImpl::DetachAll` (lines 671-674): clear the symbol registry
and the attached set; the owner map is untouched. -/
def detachAll (st : LinkerState) : LinkerState :=
  { st with registry := [], attached := [] }

/-- `DxilLinkerImpl::HasLibNameRegistered` (lines 633-635). -/
def hasLibNameRegistered (st : LinkerState) (name : String) : Bool :=
  (lookupS name st.libMap).isSome

/-- Linkage of a symbol, at the granularity `DxilLib::DxilLib` consults. -/
inductive Linkage
  | internal
  | external
deriving DecidableEq, Repr

/-- A function of a library module before indexing. -/
structure FnDecl where
  name : String
  linkage : Linkage
  isDecl : Bool
deriving DecidableEq, Repr

/-- The name a function definition carries after `DxilLib::DxilLib` has
processed it: internal-linkage definitions get the module identifier (the
registered library name) prepended; external ones keep their name. -/
def fnIndexedName (mid : String) (d : FnDecl) : String :=
  if d.linkage = Linkage.internal then mid ++ d.name else d.name

/-- The keys of `m_functionNameMap` built by `DxilLib::DxilLib`: every
function definition (declarations are skipped) under its possibly renamed
name. -/
def buildIndexNames (mid : String) (fns : List FnDecl) : List String :=
  (fns.filter (fun d => !d.isDecl)).map (fnIndexedName mid)

/-- A global variable of a library module before indexing. -/
structure GvDecl where
  name : String
  linkage : Linkage
deriving DecidableEq, Repr

/-- The name a global variable carries after `DxilLib::DxilLib` has processed
it: internal-linkage globals get the module identifier prepended. -/
def gvIndexedName (mid : String) (g : GvDecl) : String :=
  if g.linkage = Linkage.internal then mid ++ g.name else g.name

/-- A user of a defined function, as classified by the call-set loop of
`DxilLib::DxilLib` (lines 180-193): a call instruction located in a caller, a
`ConstantStruct` (the `llvm.global_ctors` pattern), or any other user, for
which the loop executes `cast<CallInst>` on a value that is not a call
instruction (an invalid cast). -/
inductive FUse
  | callFrom (caller : String)
  | constStructUse
  | constOtherUse
deriving DecidableEq, Repr

/-- Walk the users of one defined function: call users yield a
(caller, callee) edge, `ConstantStruct` users are skipped, and any other user
is the invalid `cast<CallInst>`, modelled as failure. -/
def collectCalls (fname : String) : List FUse → Option (List (String × String))
  | [] => some []
  | FUse.callFrom c :: rest =>
    (collectCalls fname rest).map (fun es => (c, fname) :: es)
  | FUse.constStructUse :: rest => collectCalls fname rest
  | FUse.constOtherUse :: _ => none

/-- The call-set construction of `DxilLib::DxilLib` over every defined
function and its users. -/
def buildCallSets : List (String × List FUse) →
    Option (List (String × String))
  | [] => some []
  | (fname, uses) :: rest =>
    match collectCalls fname uses, buildCallSets rest with
    | some es, some es2 => some (es ++ es2)
    | _, _ => none

/-- The call edges contributed by the call-instruction users of one
function. -/
def callEdgesOf (fname : String) (uses : List FUse) :
    List (String × String) :=
  uses.filterMap (fun u =>
    match u with
    | FUse.callFrom c => some (c, fname)
    | _ => none)

/-- Whether every user of a function is one the call-set loop survives: a
call instruction or a `ConstantStruct`. -/
def validUses (uses : List FUse) : Bool :=
  uses.all (fun u =>
    match u with
    | FUse.constOtherUse => false
    | _ => true)

/-- Concrete SRV descriptor used to exhibit counterexamples. -/
def cexSRV : Resource := ⟨ResClass.SRV, "tex", "float4", 0⟩

/-- Concrete UAV descriptor with the same global name and backing type as
`cexSRV` but a different class. -/
def cexUAV : Resource := ⟨ResClass.UAV, "tex", "float4", 0⟩

/-- Concrete SRV descriptor differing from `cexSRV` only in its
class-specific metadata. -/
def cexSRV2 : Resource := ⟨ResClass.SRV, "tex", "float4", 1⟩

/-- Concrete SRV descriptor with the same global name as `cexSRV` but element
type `int4`, as in the spec's resource-shape-conflict scenario. -/
def cexSRVint : Resource := ⟨ResClass.SRV, "tex", "int4", 0⟩

/-- Shader-model registry used by concrete link scenarios: every profile
resolves to a pixel-shader model. -/
def cPixelSM : String → ShaderKind := fun _ => ShaderKind.Pixel

/-- Concrete link input for the static-initializer scenario: `init_counter`
is a static initializer, `main` is the entry. -/
def c7inp : LinkInput :=
  ⟨"main", some ShaderKind.Pixel, "ps_6_0",
   [⟨"init_counter", [], true⟩, ⟨"main", [], false⟩], [Instr.other 0]⟩

/-- The module the static-initializer scenario produces (before the pass
pipeline). -/
def c7out : OutModule :=
  ⟨"main", [Instr.call "init_counter", Instr.other 0], [], []⟩

/-- Concrete link input for the profile-mismatch scenario: a vertex-shader
entry linked against a pixel profile. -/
def c8inp : LinkInput :=
  ⟨"main", some ShaderKind.Vertex, "ps_6_0", [], []⟩

/-- Concrete link input with one global redefinition and one resource-shape
conflict across two materialized functions, plus a global object (`gvId` 5)
shared by both functions, whose second occurrence is skipped via the value
map and yields no diagnostic. -/
def c5inp : LinkInput :=
  ⟨"main", some ShaderKind.Pixel, "ps_6_0",
   [⟨"main", [⟨1, "g", none⟩, ⟨2, "tex", some cexSRV⟩, ⟨5, "shared", none⟩],
     false⟩,
    ⟨"helper", [⟨5, "shared", none⟩, ⟨3, "g", none⟩,
     ⟨4, "tex", some cexSRVint⟩], false⟩], []⟩

/-- Concrete linker state for the attach-failure scenario: library `A` is
attached and owns `foo` and `main`; library `B` defines the same two
names. -/
def c2st : LinkerState :=
  ⟨[("A", ["foo", "main"]), ("B", ["foo", "main"])],
   [("foo", "A"), ("main", "A")], ["A"], []⟩

/-- Linker state holding two libraries that each define one internal
function named `f`, after indexing. -/
def twoLibState (a b f : String) : LinkerState :=
  ⟨[(a, buildIndexNames a [⟨f, Linkage.internal, false⟩]),
    (b, buildIndexNames b [⟨f, Linkage.internal, false⟩])],
   [], [], []⟩

/-- Concrete linker state with a registered, attached library, used for the
DetachAll frame scenario. -/
def c10st : LinkerState :=
  ⟨[("A", ["g", "main"])], [("g", "A"), ("main", "A")], ["A"], []⟩

/-- Concrete registry for the closure-walk scenario: `main` calls the DXIL
operation `dx.op.sqrt` and the library function `helper`. -/
def c1reg : String → Option (List String) := fun n =>
  if n = "main" then some ["dx.op.sqrt", "helper"]
  else if n = "helper" then some [] else none

/-- Concrete intrinsic predicate for the closure-walk scenario. -/
def c1isOp : String → Bool := fun n => n = "dx.op.sqrt"

/-!  Helper lemmas about the association-list and set primitives.  -/

theorem lookupS_nil {β : Type} (k : String) : lookupS k ([] : List (String × β)) = none := rfl

theorem lookupS_cons {β : Type} (k a : String) (b : β) (t : List (String × β)) :
    lookupS k ((a, b) :: t) = if a = k then some b else lookupS k t := rfl

theorem lookupS_append_right {β : Type} (k : String) (xs ys : List (String × β))
    (h : ∀ p ∈ xs, p.1 ≠ k) : lookupS k (xs ++ ys) = lookupS k ys := by
  induction xs with
  | nil => rfl
  | cons p t ih =>
    have hp : p.1 ≠ k := h p (List.mem_cons_self p t)
    rw [List.cons_append, show lookupS k ((p.1, p.2) :: (t ++ ys)) =
      if p.1 = k then some p.2 else lookupS k (t ++ ys) from rfl,
      if_neg hp]
    exact ih (fun q hq => h q (List.mem_cons_of_mem p hq))

theorem lookupS_none_forall {β : Type} (k : String) (l : List (String × β))
    (h : lookupS k l = none) : ∀ p ∈ l, p.1 ≠ k := by
  induction l with
  | nil => intro p hp; cases hp
  | cons q t ih =>
    intro p hp
    rw [show lookupS k ((q.1, q.2) :: t) =
      if q.1 = k then some q.2 else lookupS k t from rfl] at h
    by_cases hq : q.1 = k
    · rw [if_pos hq] at h; cases h
    · rw [if_neg hq] at h
      rcases List.mem_cons.mp hp with rfl | hp2
      · exact hq
      · exact ih h p hp2

theorem eraseS_append {β : Type} (k : String) (xs ys : List (String × β)) :
    eraseS k (xs ++ ys) = eraseS k xs ++ eraseS k ys := by
  unfold eraseS
  exact List.filter_append _ _

theorem eraseS_eq_self {β : Type} (k : String) (l : List (String × β))
    (h : ∀ p ∈ l, p.1 ≠ k) : eraseS k l = l := by
  unfold eraseS
  exact List.filter_eq_self.mpr (fun p hp => by simpa using h p hp)

theorem mem_insertU (l : List String) (n a : String) :
    a ∈ insertU l n ↔ (a ∈ l ∨ a = n) := by
  unfold insertU
  by_cases h : n ∈ l
  · rw [if_pos h]
    constructor
    · exact Or.inl
    · rintro (ha | rfl)
      · exact ha
      · exact h
  · rw [if_neg h]
    simp

theorem mem_foldl_insertU :
    ∀ (ns l : List String) (a : String),
    a ∈ ns.foldl insertU l ↔ (a ∈ l ∨ a ∈ ns) := by
  intro ns
  induction ns with
  | nil => intro l a; simp
  | cons m t ih =>
    intro l a
    rw [List.foldl_cons, ih, mem_insertU]
    constructor
    · rintro ((h | rfl) | h)
      · exact Or.inl h
      · exact Or.inr (List.mem_cons_self _ _)
      · exact Or.inr (List.mem_cons_of_mem _ h)
    · rintro (h | h)
      · exact Or.inl (Or.inl h)
      · rcases List.mem_cons.mp h with rfl | h2
        · exact Or.inl (Or.inr rfl)
        · exact Or.inr h2

theorem listAllCongr {α : Type} {l : List α} {p q : α → Bool}
    (h : ∀ a ∈ l, p a = q a) : l.all p = l.all q := by
  induction l with
  | nil => rfl
  | cons a t ih =>
    rw [List.all_cons, List.all_cons, h a (List.mem_cons_self a t),
      ih (fun b hb => h b (List.mem_cons_of_mem a hb))]

theorem listFilterCongr {α : Type} {l : List α} {p q : α → Bool}
    (h : ∀ a ∈ l, p a = q a) : l.filter p = l.filter q := by
  induction l with
  | nil => rfl
  | cons a t ih =>
    rw [List.filter_cons, List.filter_cons, h a (List.mem_cons_self a t),
      ih (fun b hb => h b (List.mem_cons_of_mem a hb))]

theorem listIsEmptyAppend (xs ys : List String) :
    (xs ++ ys).isEmpty = (xs.isEmpty && ys.isEmpty) := by
  cases xs <;> simp [List.isEmpty]

/-!  Claim C3: resource-merge compatibility check.  -/

/-- Claim C3 counterexample: the claim states that the merge succeeds only if
the two descriptors have the same resource class and the same element type.
`DxilLinkJob::AddResource` compares only the backing-global types
(line 338); at the concrete input `cexSRV` (stored) versus `cexUAV`
(incoming) the classes differ, the types agree, and the merge succeeds, so
the claim as stated is false. -/
theorem addResource_class_claim_false :
    ¬ (∀ (tbl : List (String × Resource × String)) (r : Resource) (gv : String)
        (p : Resource × String), lookupS r.globalName tbl = some p →
        (addResource tbl r gv).1 = true → r.resClass = p.1.resClass) := by
  intro h
  have h2 := h [("tex", cexSRV, "tex")] cexUAV "tex" (cexSRV, "tex")
    (by decide) (by decide)
  exact absurd h2 (by decide)

/-- Claim C3, amended: when the global name is already present, the merge
succeeds exactly when the stored descriptor's backing-global type equals the
incoming descriptor's backing-global type (the resource class is not
compared); on mismatch it emits `Resource already exists as <incoming class>
for <name>` and fails, and a failed add-global phase makes the link return no
module. -/
theorem addResource_type_check :
    (∀ (tbl : List (String × Resource × String)) (r : Resource) (gv : String)
      (p : Resource × String), lookupS r.globalName tbl = some p →
      addResource tbl r gv =
        if r.symType = p.1.symType then (true, tbl, [])
        else (false, tbl,
          [kRefineResource ++ r.resClass.name ++ " for " ++ r.globalName])) ∧
    (∀ (smKind : String → ShaderKind) (inp : LinkInput) (k : ShaderKind),
      inp.entryProps = some k → k ≠ ShaderKind.Library → k ≠ ShaderKind.Invalid →
      smKind inp.profile = k → (processGlobals inp.defs).ok = false →
      (linkJob smKind inp).1 = none) := by
  constructor
  · intro tbl r gv p h
    unfold addResource
    rw [h]
  · intro smKind inp k hk h1 h2 h3 h4
    simp [linkJob, hk, h1, h2, h3, h4]

/-- Witness for `addResource_type_check` at the spec's conflict scenario. -/
theorem addResource_type_check_witness :
    addResource [("tex", cexSRV, "tex")] cexSRVint "tex" =
      (false, [("tex", cexSRV, "tex")],
       [kRefineResource ++ cexSRVint.resClass.name ++ " for " ++
        cexSRVint.globalName]) ∧
    (linkJob cPixelSM c5inp).1 = none := by
  constructor
  · rw [addResource_type_check.1 [("tex", cexSRV, "tex")] cexSRVint "tex"
      (cexSRV, "tex") (by decide)]
    decide
  · exact addResource_type_check.2 cPixelSM c5inp ShaderKind.Pixel rfl
      (by decide) (by decide) rfl (by decide)

/-!  Claim C4: algebraic properties of resource merge.  -/

/-- Claim C4 counterexample: the claim states that merging two compatible
descriptors (same global name, class and element type) in either order
yields the same table.  `AddResource` keeps the first-merged descriptor, so
for `cexSRV` and `cexSRV2`, which differ only in class-specific metadata,
the two orders yield different tables. -/
theorem addResource_commutes_claim_false :
    ¬ (∀ (r1 r2 : Resource) (g1 g2 : String),
        r1.globalName = r2.globalName → r1.resClass = r2.resClass →
        r1.symType = r2.symType →
        (addResource (addResource [] r1 g1).2.1 r2 g2).2.1 =
        (addResource (addResource [] r2 g2).2.1 r1 g1).2.1) := by
  intro h
  have h2 := h cexSRV cexSRV2 "t1" "t2" rfl rfl rfl
  exact absurd h2 (by decide)

/-- Claim C4, amended: merging the same descriptor twice leaves the table
exactly as after merging it once (unconditionally); merging two compatible
descriptors (same global name, class and element type) in either order
succeeds and produces a table with exactly one entry for that name, namely
the descriptor merged first — so the two orders agree exactly when the two
descriptors are equal. -/
theorem addResource_idem_first_wins :
    (∀ (tbl : List (String × Resource × String)) (r : Resource) (gv : String),
      (addResource (addResource tbl r gv).2.1 r gv).2.1 =
        (addResource tbl r gv).2.1) ∧
    (∀ (r1 r2 : Resource) (g1 g2 : String),
      r1.globalName = r2.globalName → r1.resClass = r2.resClass →
      r1.symType = r2.symType →
      addResource [] r1 g1 = (true, [(r1.globalName, r1, g1)], []) ∧
      addResource [(r1.globalName, r1, g1)] r2 g2 =
        (true, [(r1.globalName, r1, g1)], []) ∧
      addResource [(r2.globalName, r2, g2)] r1 g1 =
        (true, [(r2.globalName, r2, g2)], [])) := by
  constructor
  · intro tbl r gv
    rcases h : lookupS r.globalName tbl with _ | p
    · simp [addResource, h, lookupS_cons]
    · by_cases ht : r.symType = p.1.symType <;> simp [addResource, h, ht]
  · intro r1 r2 g1 g2 hn hc ht
    refine ⟨rfl, ?_, ?_⟩
    · simp [addResource, lookupS_cons, hn, ht]
    · simp [addResource, lookupS_cons, hn.symm, ht.symm]

/-- Witness for `addResource_idem_first_wins` at concrete compatible
descriptors. -/
theorem addResource_idem_first_wins_witness :
    addResource [] cexSRV "t1" = (true, [(cexSRV.globalName, cexSRV, "t1")], []) ∧
    addResource [(cexSRV.globalName, cexSRV, "t1")] cexSRV2 "t2" =
      (true, [(cexSRV.globalName, cexSRV, "t1")], []) ∧
    addResource [(cexSRV2.globalName, cexSRV2, "t2")] cexSRV "t1" =
      (true, [(cexSRV2.globalName, cexSRV2, "t2")], []) :=
  addResource_idem_first_wins.2 cexSRV cexSRV2 "t1" "t2" rfl rfl rfl

/-!  Claim C9: call-set construction over function users.  -/

/-- Claim C9 counterexample: the claim states that every non-call constant
use of a defined function is ignored and indexing never fails or reaches an
invalid cast.  The loop at DxilLinker.cpp lines 181-185 skips only
`ConstantStruct` users and executes `cast<CallInst>` on every other user, so
a function appearing in any other constant (e.g. a `ConstantArray`
initializer) reaches an invalid cast, modelled as failure. -/
theorem buildCallSets_total_claim_false :
    ¬ (∀ fns : List (String × List FUse), (buildCallSets fns).isSome = true) := by
  intro h
  exact absurd (h [("F", [FUse.constOtherUse])]) (by decide)

/-- Claim C9, amended: each call-instruction user of a defined function F
contributes F to the calling function's call set; users that are
`ConstantStruct` constants are ignored; and index construction succeeds
exactly when every user is of one of those two shapes — any other user
reaches the invalid `cast<CallInst>`. -/
theorem buildCallSets_spec :
    ∀ fns : List (String × List FUse),
    buildCallSets fns =
      if fns.all (fun p => validUses p.2) then
        some ((fns.map (fun p => callEdgesOf p.1 p.2)).flatten)
      else none := by
  have hcollect : ∀ (f : String) (us : List FUse),
      collectCalls f us =
        if validUses us then some (callEdgesOf f us) else none := by
    intro f us
    induction us with
    | nil => rfl
    | cons u rest ih =>
      cases u with
      | callFrom c =>
        rw [show collectCalls f (FUse.callFrom c :: rest) =
          (collectCalls f rest).map (fun es => (c, f) :: es) from rfl, ih]
        by_cases h : validUses rest <;> simp [h, validUses, callEdgesOf]
      | constStructUse =>
        rw [show collectCalls f (FUse.constStructUse :: rest) =
          collectCalls f rest from rfl, ih]
        by_cases h : validUses rest <;> simp [h, validUses, callEdgesOf]
      | constOtherUse =>
        simp [collectCalls, validUses]
  intro fns
  induction fns with
  | nil => rfl
  | cons p rest ih =>
    rw [show buildCallSets (p :: rest) =
      (match collectCalls p.1 p.2, buildCallSets rest with
       | some es, some es2 => some (es ++ es2)
       | _, _ => none) from rfl, hcollect, ih]
    by_cases h1 : validUses p.2 <;> by_cases h2 : rest.all (fun q => validUses q.2) <;>
      simp [h1, h2]

/-!  Claim C7: static-initializer calls at the head of the entry block.  -/

/-- Claim C7: in every module `DxilLinkJob::Link` returns (as built before
the opaque pass pipeline), the entry function's entry block begins with the
calls to the materialized static initializers, followed by the entry's
cloned body; in particular when exactly one materialized function is a
static initializer, the first instruction of the entry block is the call to
it. -/
theorem link_inserts_init_calls :
    (∀ (smKind : String → ShaderKind) (inp : LinkInput) (out : OutModule)
       (ds : List String),
      linkJob smKind inp = (some out, ds) →
      out.entryBody = initCalls inp.defs ++ inp.entryBody) ∧
    (∀ (smKind : String → ShaderKind) (inp : LinkInput) (out : OutModule)
       (ds : List String) (d : FuncDef),
      linkJob smKind inp = (some out, ds) →
      inp.defs.filter (fun x => x.isInit) = [d] →
      out.entryBody.head? = some (Instr.call d.fname)) := by
  have h1 : ∀ (smKind : String → ShaderKind) (inp : LinkInput) (out : OutModule)
      (ds : List String),
      linkJob smKind inp = (some out, ds) →
      out.entryBody = initCalls inp.defs ++ inp.entryBody := by
    intro smKind inp out ds h
    simp only [linkJob] at h
    split at h
    · exact absurd (congrArg Prod.fst h) (by simp)
    · split at h
      · exact absurd (congrArg Prod.fst h) (by simp)
      · split at h
        · exact absurd (congrArg Prod.fst h) (by simp)
        · split at h
          · have h6 := Option.some.inj (congrArg Prod.fst h)
            rw [← h6]
          · exact absurd (congrArg Prod.fst h) (by simp)
  refine ⟨h1, ?_⟩
  intro smKind inp out ds d h hf
  rw [h1 smKind inp out ds h, initCalls, hf]
  rfl

/-- Witness for `link_inserts_init_calls` at the spec's static-initializer
scenario: the first instruction of `main`'s entry block is a call to
`init_counter`. -/
theorem link_inserts_init_calls_witness :
    c7out.entryBody.head? = some (Instr.call "init_counter") ∧
    c7out.entryBody = initCalls c7inp.defs ++ c7inp.entryBody :=
  ⟨link_inserts_init_calls.2 cPixelSM c7inp c7out [] ⟨"init_counter", [], true⟩
     (by decide) (by decide),
   link_inserts_init_calls.1 cPixelSM c7inp c7out [] (by decide)⟩

/-!  Claim C8: profile mismatch validation.  -/

/-- Claim C8: when the entry's shader kind is valid and not `library` but
differs from the kind of the shader model the profile resolves to,
`DxilLinkJob::Link` emits exactly the diagnostic `Profile mismatch between
entry function and target profile:<P> and <kind-name>` and returns no
module; the add-global phase and module construction are never reached (the
returned pair is exactly the failure with that single diagnostic). -/
theorem link_profile_mismatch :
    ∀ (smKind : String → ShaderKind) (inp : LinkInput) (k : ShaderKind),
    inp.entryProps = some k → k ≠ ShaderKind.Library → k ≠ ShaderKind.Invalid →
    smKind inp.profile ≠ k →
    linkJob smKind inp =
      (none, [kShaderKindMismatch ++ inp.profile ++ " and " ++ k.name]) := by
  intro smKind inp k hp h1 h2 h3
  simp [linkJob, hp, h1, h2, h3]

/-- Witness for `link_profile_mismatch` at the spec's scenario: vertex entry,
pixel profile `ps_6_0`. -/
theorem link_profile_mismatch_witness :
    linkJob cPixelSM c8inp =
      (none, [kShaderKindMismatch ++ c8inp.profile ++ " and " ++
        ShaderKind.name ShaderKind.Vertex]) :=
  link_profile_mismatch cPixelSM c8inp ShaderKind.Vertex rfl
    (by decide) (by decide) (by decide)

/-!  Attachment: the insertion loop, the rollback loop, and their specs.  -/

theorem attachLoop_spec (lib : String) :
    ∀ (tbl : List String) (reg : List (String × String)) (ds : List String)
      (ok : Bool), tbl.Nodup →
    attachLoop lib tbl reg ds ok =
      (ok && tbl.all (fun n => (lookupS n reg).isNone),
       ((tbl.filter (fun n => (lookupS n reg).isNone)).reverse.map
          (fun n => (n, lib))) ++ reg,
       ds ++ (tbl.filter (fun n => (lookupS n reg).isSome)).map
          (fun n => kRedefineFunction ++ n)) := by
  intro tbl
  induction tbl with
  | nil => intro reg ds ok _; simp [attachLoop]
  | cons n rest ih =>
    intro reg ds ok hnd
    have hn : n ∉ rest := (List.nodup_cons.mp hnd).1
    have hd : rest.Nodup := (List.nodup_cons.mp hnd).2
    have hcong : ∀ m ∈ rest, lookupS m ((n, lib) :: reg) = lookupS m reg := by
      intro m hm
      have hne : n ≠ m := fun he => hn (by rw [he]; exact hm)
      rw [lookupS_cons, if_neg hne]
    rcases h : lookupS n reg with _ | l
    · have hstep : attachLoop lib (n :: rest) reg ds ok =
          attachLoop lib rest ((n, lib) :: reg) ds ok := by
        simp [attachLoop, h]
      rw [hstep, ih ((n, lib) :: reg) ds ok hd]
      have hall : rest.all (fun m => (lookupS m ((n, lib) :: reg)).isNone) =
          rest.all (fun m => (lookupS m reg).isNone) :=
        listAllCongr (fun m hm => by rw [hcong m hm])

      have hfa : rest.filter (fun m => (lookupS m ((n, lib) :: reg)).isNone) =
          rest.filter (fun m => (lookupS m reg).isNone) :=
        listFilterCongr (fun m hm => by rw [hcong m hm])
      have hfb : rest.filter (fun m => (lookupS m ((n, lib) :: reg)).isSome) =
          rest.filter (fun m => (lookupS m reg).isSome) :=
        listFilterCongr (fun m hm => by rw [hcong m hm])
      rw [hall, hfa, hfb]
      simp [List.all_cons, List.filter_cons, h, List.reverse_cons,
        List.map_append, List.append_assoc]
    · have hstep : attachLoop lib (n :: rest) reg ds ok =
          attachLoop lib rest reg (ds ++ [kRedefineFunction ++ n]) false := by
        simp [attachLoop, h]
      rw [hstep, ih reg _ false hd]
      simp [List.all_cons, List.filter_cons, h, List.append_assoc]

theorem rollback_restore (lib : String) :
    ∀ (tbl : List String) (reg : List (String × String)),
    tbl.Nodup →
    (∀ n ∈ tbl, ∀ l, lookupS n reg = some l → l ≠ lib) →
    rollback lib tbl
      (((tbl.filter (fun n => (lookupS n reg).isNone)).reverse.map
         (fun n => (n, lib))) ++ reg) = reg := by
  intro tbl
  induction tbl with
  | nil => intro reg _ _; simp [rollback]
  | cons n rest ih =>
    intro reg hnd hown
    have hn : n ∉ rest := (List.nodup_cons.mp hnd).1
    have hd : rest.Nodup := (List.nodup_cons.mp hnd).2
    have hown2 : ∀ m ∈ rest, ∀ l, lookupS m reg = some l → l ≠ lib :=
      fun m hm => hown m (List.mem_cons_of_mem n hm)
    set A := (rest.filter (fun m => (lookupS m reg).isNone)).reverse.map
      (fun m => (m, lib)) with hA
    have hAkeys : ∀ p ∈ A, p.1 ≠ n := by
      intro p hp
      rcases List.mem_map.mp hp with ⟨m, hm, rfl⟩
      have hm2 : m ∈ rest := List.mem_of_mem_filter (List.mem_reverse.mp hm)
      exact fun he => hn (he ▸ hm2)
    rcases h : lookupS n reg with _ | l
    · have hfil : (n :: rest).filter (fun m => (lookupS m reg).isNone) =
          n :: rest.filter (fun m => (lookupS m reg).isNone) := by
        simp [List.filter_cons, h]
      rw [hfil, List.reverse_cons, List.map_append, ← hA]
      simp only [List.map_cons, List.map_nil]
      have hL : ((A ++ [(n, lib)]) ++ reg) = A ++ ((n, lib) :: reg) := by
        rw [List.append_assoc]; rfl
      rw [hL]
      have hlook : lookupS n (A ++ ((n, lib) :: reg)) = some lib := by
        rw [lookupS_append_right n A _ hAkeys, lookupS_cons, if_pos rfl]
      have hstep : rollback lib (n :: rest) (A ++ ((n, lib) :: reg)) =
          rollback lib rest (eraseS n (A ++ ((n, lib) :: reg))) := by
        simp [rollback, hlook]
      rw [hstep]
      have herase : eraseS n (A ++ ((n, lib) :: reg)) = A ++ reg := by
        rw [show (A ++ ((n, lib) :: reg)) = A ++ ([(n, lib)] ++ reg) from rfl,
          eraseS_append, eraseS_append,
          eraseS_eq_self n A hAkeys,
          eraseS_eq_self n reg (lookupS_none_forall n reg h)]
        simp [eraseS]
      rw [herase]
      exact ih reg hd hown2
    · have hfil : (n :: rest).filter (fun m => (lookupS m reg).isNone) =
          rest.filter (fun m => (lookupS m reg).isNone) := by
        simp [List.filter_cons, h]
      rw [hfil, ← hA]
      have hlook : lookupS n (A ++ reg) = some l := by
        rw [lookupS_append_right n A _ hAkeys, h]
      have hstep : rollback lib (n :: rest) (A ++ reg) =
          rollback lib rest (A ++ reg) := by
        simp [rollback, hlook, hown n (List.mem_cons_self n rest) l h]
      rw [hstep]
      exact ih reg hd hown2

/-!  Claim C2: a failed attach emits all collision diagnostics and restores
the registry.  -/

/-- Claim C2: over reachable linker states (the registry owns no entry for a
library that is not attached, and a library's indexed name table has unique
keys), when `AttachLib` fails on a detached library, a
`Definition already exists for function <N>` diagnostic has been appended for
every colliding name (the diagnostics are exactly the collision messages, in
table order), the registry is restored to its exact pre-call state, the
library is not in the attached set, and the owner map is untouched. -/
theorem attach_fail_atomic :
    ∀ (st : LinkerState) (lib : String) (tbl : List String),
    tbl.Nodup →
    (∀ n l, lookupS n st.registry = some l → l ≠ lib) →
    lib ∉ st.attached →
    (attachLibImpl st lib tbl).1 = false →
    ((attachLibImpl st lib tbl).2.diags =
        st.diags ++ (tbl.filter (fun n => (lookupS n st.registry).isSome)).map
          (fun n => kRedefineFunction ++ n)) ∧
    (∀ n ∈ tbl, (lookupS n st.registry).isSome = true →
        (kRedefineFunction ++ n) ∈ (attachLibImpl st lib tbl).2.diags) ∧
    ((attachLibImpl st lib tbl).2.registry = st.registry) ∧
    ((attachLibImpl st lib tbl).2.attached = st.attached) ∧
    (lib ∉ (attachLibImpl st lib tbl).2.attached) ∧
    ((attachLibImpl st lib tbl).2.libMap = st.libMap) := by
  intro st lib tbl hnd hown hatt hfail
  have hspec := attachLoop_spec lib tbl st.registry [] true hnd
  cases hb : tbl.all (fun n => (lookupS n st.registry).isNone) with
  | true =>
    exfalso
    simp only [attachLibImpl, if_neg hatt] at hfail
    rw [hspec] at hfail
    simp [hb] at hfail
  | false =>
    have hval : attachLibImpl st lib tbl =
        (false,
         { st with
            registry := rollback lib tbl
              (((tbl.filter (fun n => (lookupS n st.registry).isNone)).reverse.map
                 (fun n => (n, lib))) ++ st.registry),
            diags := st.diags ++
              ([] ++ (tbl.filter (fun n => (lookupS n st.registry).isSome)).map
                (fun n => kRedefineFunction ++ n)) }) := by
      simp only [attachLibImpl, if_neg hatt]
      rw [hspec]
      simp [hb]
    rw [hval]
    have hreg : rollback lib tbl
        (((tbl.filter (fun n => (lookupS n st.registry).isNone)).reverse.map
           (fun n => (n, lib))) ++ st.registry) = st.registry :=
      rollback_restore lib tbl st.registry hnd (fun n _ l h => hown n l h)
    refine ⟨by simp, ?_, by simpa using hreg, rfl, hatt, rfl⟩
    intro n hnn hsome
    simp only [List.nil_append]
    exact List.mem_append.mpr (Or.inr (List.mem_map.mpr
      ⟨n, List.mem_filter.mpr ⟨hnn, hsome⟩, rfl⟩))

/-- Witness for `attach_fail_atomic`: library `B` redefines `foo` and `main`
already owned by the attached library `A`; both diagnostics are emitted and
the registry is restored. -/
theorem attach_fail_atomic_witness :
    ((attachLibImpl c2st "B" ["foo", "main"]).2.diags =
        c2st.diags ++
          (["foo", "main"].filter
            (fun n => (lookupS n c2st.registry).isSome)).map
            (fun n => kRedefineFunction ++ n)) ∧
    ((attachLibImpl c2st "B" ["foo", "main"]).2.registry = c2st.registry) ∧
    ("B" ∉ (attachLibImpl c2st "B" ["foo", "main"]).2.attached) := by
  have hown : ∀ n l, lookupS n c2st.registry = some l → l ≠ "B" := by
    intro n l h
    simp only [c2st, lookupS] at h
    split_ifs at h
    all_goals (injection h with h2; subst h2; decide)
  have h := attach_fail_atomic c2st "B" ["foo", "main"] (by decide) hown
    (by decide) (by decide)
  exact ⟨h.1, h.2.2.1, h.2.2.2.2.1⟩

/-!  Claim C6: internal-symbol renaming prevents collisions.  -/

/-- Claim C6: at index time an internal-linkage function definition and an
internal-linkage global get the library identifier prepended while
external-linkage symbols keep their names; for distinct library identifiers
the renamed copies of an internal `f` are distinct, so attaching two
libraries that each define an internal `f` succeeds for both. -/
theorem internal_rename_no_collision :
    ∀ (a b f : String), a ≠ b →
    (fnIndexedName a ⟨f, Linkage.internal, false⟩ = a ++ f) ∧
    (fnIndexedName a ⟨f, Linkage.external, false⟩ = f) ∧
    (gvIndexedName a ⟨f, Linkage.internal⟩ = a ++ f) ∧
    (a ++ f ≠ b ++ f) ∧
    ((attachLibByName (twoLibState a b f) a).1 = true ∧
     (attachLibByName (attachLibByName (twoLibState a b f) a).2 b).1 = true) := by
  intro a b f hab
  have hcancel : a ++ f ≠ b ++ f := by
    intro h
    apply hab
    have hd := congrArg String.data h
    rw [String.data_append, String.data_append] at hd
    exact String.ext (List.append_cancel_right hd)
  refine ⟨rfl, rfl, rfl, hcancel, ?_, ?_⟩
  · simp [attachLibByName, twoLibState, lookupS, attachLibImpl, attachLoop,
      buildIndexNames, fnIndexedName]
  · simp [attachLibByName, twoLibState, lookupS, attachLibImpl, attachLoop,
      buildIndexNames, fnIndexedName, hab, Ne.symm hab, hcancel]

/-- Witness for `internal_rename_no_collision` at concrete libraries `A` and
`B` each defining an internal `f`. -/
theorem internal_rename_no_collision_witness :
    (fnIndexedName "A" ⟨"f", Linkage.internal, false⟩ = "A" ++ "f") ∧
    (fnIndexedName "A" ⟨"f", Linkage.external, false⟩ = "f") ∧
    (gvIndexedName "A" ⟨"f", Linkage.internal⟩ = "A" ++ "f") ∧
    ("A" ++ "f" ≠ "B" ++ "f") ∧
    ((attachLibByName (twoLibState "A" "B" "f") "A").1 = true ∧
     (attachLibByName (attachLibByName (twoLibState "A" "B" "f") "A").2 "B").1
       = true) :=
  internal_rename_no_collision "A" "B" "f" (by decide)

/-!  Claim C10: DetachAll clears only the registry and the attached set.  -/

/-- Claim C10: `DetachAll` leaves the owner map (the libraries and their
link-info tables) untouched — so `HasLibNameRegistered` answers exactly as
before — clears the registry and the attached set, and any registered
library can be attached again by name afterwards. -/
theorem detachAll_registry_only :
    ∀ (st : LinkerState) (name : String) (tbl : List String),
    ((detachAll st).libMap = st.libMap) ∧
    (∀ n, hasLibNameRegistered (detachAll st) n = hasLibNameRegistered st n) ∧
    ((detachAll st).registry = [] ∧ (detachAll st).attached = []) ∧
    (lookupS name st.libMap = some tbl → tbl.Nodup →
      (attachLibByName (detachAll st) name).1 = true) := by
  intro st name tbl
  refine ⟨rfl, fun n => rfl, ⟨rfl, rfl⟩, ?_⟩
  intro h hnd
  have hall : tbl.all
      (fun n => (lookupS n ([] : List (String × String))).isNone) = true :=
    List.all_eq_true.mpr (fun x _ => rfl)
  have hlook : lookupS name (detachAll st).libMap = some tbl := h
  simp only [attachLibByName, hlook]
  simp only [attachLibImpl, detachAll, List.not_mem_nil, if_neg]
  rw [attachLoop_spec name tbl [] [] true hnd]
  simp [hall]

/-- Witness for `detachAll_registry_only` at a concrete state with one
attached library. -/
theorem detachAll_registry_only_witness :
    ((detachAll c10st).libMap = c10st.libMap) ∧
    ((attachLibByName (detachAll c10st) "A").1 = true) :=
  ⟨(detachAll_registry_only c10st "A" ["g", "main"]).1,
   (detachAll_registry_only c10st "A" ["g", "main"]).2.2.2 (by decide)
     (by decide)⟩

/-!  The add-global loop: invariants relating the fold state to the
processed prefix.  -/

theorem seenName_append_iff (p : List GVInfo) (g : GVInfo) (n : String) :
    seenName (p ++ [g]) n = true ↔ (seenName p n = true ∨ g.name = n) := by
  simp [seenName, List.any_append]

theorem findAppend {α : Type} (p : α → Bool) (l1 l2 : List α) :
    (l1 ++ l2).find? p = ((l1.find? p).or (l2.find? p)) := by
  induction l1 with
  | nil => simp [Option.or]
  | cons a t ih =>
    by_cases h : p a <;> simp [List.find?_cons, h, ih, Option.or]

theorem firstRes_append_res_none (p : List GVInfo) (g : GVInfo)
    (hres : g.res = none) (rn : String) :
    firstRes (p ++ [g]) rn = firstRes p rn := by
  simp [firstRes, List.filterMap_append, hres]

theorem firstRes_append_res_some (p : List GVInfo) (g : GVInfo) (r : Resource)
    (hres : g.res = some r) (rn : String) :
    firstRes (p ++ [g]) rn =
      ((firstRes p rn).or (if r.globalName = rn then some r else none)) := by
  simp only [firstRes, List.filterMap_append, findAppend]
  have : List.filterMap GVInfo.res [g] = [r] := by simp [hres]
  rw [this]
  by_cases h : r.globalName = rn <;> simp [List.find?_cons, h]

theorem firstRes_append_hit (p : List GVInfo) (g : GVInfo) (r r0 : Resource)
    (hres : g.res = some r) (hfr : firstRes p r.globalName = some r0)
    (rn : String) : firstRes (p ++ [g]) rn = firstRes p rn := by
  rw [firstRes_append_res_some p g r hres rn]
  by_cases h : r.globalName = rn
  · subst h; rw [hfr]; rfl
  · rw [if_neg h]; cases firstRes p rn <;> rfl

theorem firstRes_append_fresh (p : List GVInfo) (g : GVInfo) (r : Resource)
    (hres : g.res = some r) (hfr : firstRes p r.globalName = none)
    (rn : String) : firstRes (p ++ [g]) rn =
      if r.globalName = rn then some r else firstRes p rn := by
  rw [firstRes_append_res_some p g r hres rn]
  by_cases h : r.globalName = rn
  · subst h; rw [hfr]; simp
  · rw [if_neg h, if_neg h]; cases firstRes p rn <;> rfl

theorem seen_invar_mem (p : List GVInfo) (g : GVInfo) (ng : List String)
    (h1 : ∀ n, n ∈ ng ↔ seenName p n = true)
    (hseen : seenName p g.name = true) :
    ∀ n, n ∈ ng ↔ seenName (p ++ [g]) n = true := by
  intro n
  rw [h1 n, seenName_append_iff]
  constructor
  · exact Or.inl
  · rintro (h | h)
    · exact h
    · rw [← h]; exact hseen

theorem seen_invar_cons (p : List GVInfo) (g : GVInfo) (ng : List String)
    (h1 : ∀ n, n ∈ ng ↔ seenName p n = true) :
    ∀ n, n ∈ (g.name :: ng) ↔ seenName (p ++ [g]) n = true := by
  intro n
  rw [List.mem_cons, h1 n, seenName_append_iff]
  constructor
  · rintro (h | h)
    · exact Or.inr h.symm
    · exact Or.inl h
  · rintro (h | h)
    · exact Or.inr h
    · exact Or.inl h.symm

theorem beqFalseOfNe {α : Type} [BEq α] [LawfulBEq α] {a b : α}
    (h : ¬ a = b) : (a == b) = false := by
  cases hx : a == b with
  | false => rfl
  | true => exact absurd (eq_of_beq hx) h

theorem seenName_of_mem (p : List GVInfo) (g : GVInfo) (h : g ∈ p) :
    seenName p g.name = true := by
  simp only [seenName, List.any_eq_true, decide_eq_true_eq]
  exact ⟨g, h, rfl⟩

theorem firstRes_some_of_mem (p : List GVInfo) (g : GVInfo) (r : Resource)
    (hg : g ∈ p) (hres : g.res = some r) :
    ∃ r0, firstRes p r.globalName = some r0 := by
  rcases hx : firstRes p r.globalName with _ | r0
  · exfalso
    unfold firstRes at hx
    have hr : r ∈ p.filterMap GVInfo.res := List.mem_filterMap.mpr ⟨g, hg, hres⟩
    have h2 := List.find?_eq_none.mp hx r hr
    simp at h2
  · exact ⟨r0, rfl⟩

theorem mappedFrom_append (g g1 : GVInfo) :
    ∀ (p acc : List GVInfo),
    mappedFrom g acc (p ++ [g1]) =
      (mappedFrom g acc p || ((g1.gvId == g.gvId) && succAt (acc ++ p) g1)) := by
  intro p
  induction p with
  | nil => intro acc; simp [mappedFrom]
  | cons g0 rest ih =>
    intro acc
    rw [List.cons_append,
      show mappedFrom g acc (g0 :: (rest ++ [g1])) =
        (((g0.gvId == g.gvId) && succAt acc g0) ||
          mappedFrom g (acc ++ [g0]) (rest ++ [g1])) from rfl,
      ih (acc ++ [g0]),
      show mappedFrom g acc (g0 :: rest) =
        (((g0.gvId == g.gvId) && succAt acc g0) ||
          mappedFrom g (acc ++ [g0]) rest) from rfl,
      List.append_assoc]
    simp [Bool.or_assoc]

theorem mappedIn_append_one (p : List GVInfo) (g g1 : GVInfo) :
    mappedIn (p ++ [g1]) g =
      (mappedIn p g || ((g1.gvId == g.gvId) && succAt p g1)) := by
  unfold mappedIn
  rw [mappedFrom_append g g1 p []]
  rfl

theorem mappedFrom_exists (g : GVInfo) :
    ∀ (p acc : List GVInfo), mappedFrom g acc p = true →
    ∃ g1 ∈ p, g1.gvId = g.gvId := by
  intro p
  induction p with
  | nil => intro acc h; cases h
  | cons g0 rest ih =>
    intro acc h
    rw [show mappedFrom g acc (g0 :: rest) =
      (((g0.gvId == g.gvId) && succAt acc g0) ||
        mappedFrom g (acc ++ [g0]) rest) from rfl] at h
    rcases Bool.or_eq_true_iff.mp h with h1 | h1
    · exact ⟨g0, List.mem_cons_self g0 rest,
        eq_of_beq (Bool.and_eq_true_iff.mp h1).1⟩
    · rcases ih (acc ++ [g0]) h1 with ⟨g1, hg1, hid⟩
      exact ⟨g1, List.mem_cons_of_mem _ hg1, hid⟩

theorem mappedIn_exists (p : List GVInfo) (g : GVInfo)
    (h : mappedIn p g = true) : ∃ g1 ∈ p, g1.gvId = g.gvId :=
  mappedFrom_exists g p [] h

theorem mappedIn_false_of_fresh (S p : List GVInfo) (g : GVInfo)
    (hfun : ∀ g1 ∈ S, ∀ g2 ∈ S, g1.gvId = g2.gvId → g1 = g2)
    (hgS : g ∈ S) (hpS : ∀ x ∈ p, x ∈ S)
    (hseenF : seenName p g.name = false) : mappedIn p g = false := by
  cases hm : mappedIn p g with
  | false => rfl
  | true =>
    exfalso
    rcases mappedIn_exists p g hm with ⟨g1, hg1, hid⟩
    have heq : g1 = g := hfun g1 (hpS g1 hg1) g hgS hid
    rw [heq] at hg1
    rw [seenName_of_mem p g hg1] at hseenF
    cases hseenF

theorem vmapInv_keep (S p : List GVInfo) (g : GVInfo) (vm : List Nat)
    (hfun : ∀ g1 ∈ S, ∀ g2 ∈ S, g1.gvId = g2.gvId → g1 = g2)
    (hgS : g ∈ S)
    (hvm : ∀ g0 ∈ S, (g0.gvId ∈ vm ↔ mappedIn p g0 = true))
    (hcomp : succAt p g = true → mappedIn p g = true) :
    ∀ g0 ∈ S, (g0.gvId ∈ vm ↔ mappedIn (p ++ [g]) g0 = true) := by
  intro g0 hg0
  rw [mappedIn_append_one]
  by_cases hid : g.gvId = g0.gvId
  · have heq : g = g0 := hfun g hgS g0 hg0 hid
    rw [← heq]
    rw [hvm g hgS]
    cases hsA : succAt p g with
    | false => simp
    | true => simp [hcomp hsA]
  · rw [beqFalseOfNe hid]
    simp only [Bool.false_and, Bool.or_false]
    exact hvm g0 hg0

theorem vmapInv_add (S p : List GVInfo) (g : GVInfo) (vm : List Nat)
    (hfun : ∀ g1 ∈ S, ∀ g2 ∈ S, g1.gvId = g2.gvId → g1 = g2)
    (hgS : g ∈ S)
    (hvm : ∀ g0 ∈ S, (g0.gvId ∈ vm ↔ mappedIn p g0 = true))
    (hsucc : succAt p g = true) :
    ∀ g0 ∈ S, (g0.gvId ∈ (g.gvId :: vm) ↔ mappedIn (p ++ [g]) g0 = true) := by
  intro g0 hg0
  rw [mappedIn_append_one]
  by_cases hid : g.gvId = g0.gvId
  · have heq : g = g0 := hfun g hgS g0 hg0 hid
    rw [← heq]
    simp [hsucc]
  · rw [beqFalseOfNe hid]
    simp only [Bool.false_and, Bool.or_false, List.mem_cons]
    constructor
    · rintro (h | h)
      · exact absurd h.symm hid
      · exact (hvm g0 hg0).mp h
    · intro h
      exact Or.inr ((hvm g0 hg0).mpr h)

theorem gstep_spec (S p : List GVInfo) (st : GState) (g : GVInfo)
    (hfun : ∀ g1 ∈ S, ∀ g2 ∈ S, g1.gvId = g2.gvId → g1 = g2)
    (hgS : g ∈ S) (hpS : ∀ x ∈ p, x ∈ S)
    (h1 : ∀ n, n ∈ st.newGlobals ↔ seenName p n = true)
    (h2 : ∀ g0 ∈ S, (g0.gvId ∈ st.vmap ↔ mappedIn p g0 = true))
    (h3 : ∀ rn, (lookupS rn st.resTbl).map Prod.fst = firstRes p rn) :
    ((gstep st g).diags = st.diags ++ (conflictMsg p g).toList) ∧
    ((gstep st g).ok = (st.ok && (conflictMsg p g).toList.isEmpty)) ∧
    (∀ n, n ∈ (gstep st g).newGlobals ↔ seenName (p ++ [g]) n = true) ∧
    (∀ g0 ∈ S, (g0.gvId ∈ (gstep st g).vmap ↔ mappedIn (p ++ [g]) g0 = true)) ∧
    (∀ rn, (lookupS rn (gstep st g).resTbl).map Prod.fst =
       firstRes (p ++ [g]) rn) := by
  by_cases hname : g.name ∈ st.newGlobals
  · have hseen : seenName p g.name = true := (h1 _).mp hname
    by_cases hvmT : g.gvId ∈ st.vmap
    · -- the vmap skip of line 513: an already-mapped global is passed over
      have hmT : mappedIn p g = true := (h2 g hgS).mp hvmT
      have hgs : gstep st g = st := by
        simp [gstep, hname, hvmT]
      have hcm : conflictMsg p g = none := by
        simp [conflictMsg, hmT]
      rw [hgs, hcm]
      refine ⟨by simp, by simp, seen_invar_mem p g st.newGlobals h1 hseen,
        vmapInv_keep S p g st.vmap hfun hgS h2 (fun _ => hmT), ?_⟩
      intro rn
      rcases hres : g.res with _ | r
      · rw [firstRes_append_res_none p g hres rn]
        exact h3 rn
      · have hgp : g ∈ p := by
          rcases mappedIn_exists p g hmT with ⟨g1, hg1, hid⟩
          have heq : g1 = g := hfun g1 (hpS g1 hg1) g hgS hid
          rw [heq] at hg1
          exact hg1
        rcases firstRes_some_of_mem p g r hgp hres with ⟨r0, hfr⟩
        rw [firstRes_append_hit p g r r0 hres hfr rn]
        exact h3 rn
    · have hmF : mappedIn p g = false := by
        cases hm : mappedIn p g with
        | false => rfl
        | true => exact absurd ((h2 g hgS).mpr hm) hvmT
      rcases hres : g.res with _ | r
      · -- plain global whose name is already created: redefinition error
        have hgs : gstep st g =
            { st with diags := st.diags ++ [kRedefineGlobal ++ g.name],
                      ok := false } := by
          simp [gstep, hname, hvmT, hres]
        have hcm : conflictMsg p g = some (kRedefineGlobal ++ g.name) := by
          simp [conflictMsg, hmF, hres, hseen]
        have hsA : succAt p g = false := by
          simp [succAt, hseen, hres]
        rw [hgs, hcm]
        exact ⟨rfl, by simp, seen_invar_mem p g st.newGlobals h1 hseen,
          vmapInv_keep S p g st.vmap hfun hgS h2
            (fun hc => absurd hc (by simp [hsA])),
          fun rn => by
            rw [firstRes_append_res_none p g hres rn]; exact h3 rn⟩
      · have hres3 : (lookupS r.globalName st.resTbl).map Prod.fst =
            firstRes p r.globalName := h3 r.globalName
        rcases hfr : firstRes p r.globalName with _ | r0
        · -- resource key not in the merged table yet: insert, succeed, map
          rw [hfr] at hres3
          have hlk : lookupS r.globalName st.resTbl = none :=
            Option.map_eq_none'.mp hres3
          have haddr : addResource st.resTbl r g.name =
              (true, (r.globalName, r, g.name) :: st.resTbl, []) := by
            simp [addResource, hlk]
          have hgs : gstep st g =
              { st with resTbl := (r.globalName, r, g.name) :: st.resTbl,
                        vmap := g.gvId :: st.vmap } := by
            simp [gstep, hname, hvmT, hres, haddr]
          have hcm : conflictMsg p g = none := by
            simp [conflictMsg, hmF, hres, hfr]
          have hsucc : succAt p g = true := by
            simp [succAt, hres, hfr]
          rw [hgs, hcm]
          refine ⟨by simp, by simp,
            seen_invar_mem p g st.newGlobals h1 hseen,
            vmapInv_add S p g st.vmap hfun hgS h2 hsucc, ?_⟩
          intro rn
          rw [firstRes_append_fresh p g r hres hfr rn]
          by_cases hrn : r.globalName = rn
          · rw [lookupS_cons, if_pos hrn, if_pos hrn]; rfl
          · rw [lookupS_cons, if_neg hrn, if_neg hrn]
            exact h3 rn
        · -- resource key present: compare backing types
          rw [hfr] at hres3
          rcases hlk : lookupS r.globalName st.resTbl with _ | pr
          · rw [hlk] at hres3; exact absurd hres3 (by simp)
          · rw [hlk] at hres3
            have hpr : pr.1 = r0 := by simpa using hres3
            by_cases hty : r.symType = r0.symType
            · have haddr : addResource st.resTbl r g.name =
                  (true, st.resTbl, []) := by
                simp [addResource, hlk, hpr, hty]
              have hgs : gstep st g =
                  { st with vmap := g.gvId :: st.vmap } := by
                simp [gstep, hname, hvmT, hres, haddr]
              have hcm : conflictMsg p g = none := by
                simp [conflictMsg, hmF, hres, hfr, hty]
              have hsucc : succAt p g = true := by
                simp [succAt, hres, hfr, hty]
              rw [hgs, hcm]
              exact ⟨by simp, by simp,
                seen_invar_mem p g st.newGlobals h1 hseen,
                vmapInv_add S p g st.vmap hfun hgS h2 hsucc,
                fun rn => by
                  rw [firstRes_append_hit p g r r0 hres hfr rn]; exact h3 rn⟩
            · have hty2 : ¬ r0.symType = r.symType := fun he => hty he.symm
              have hb : (r0.symType == r.symType) = false := beqFalseOfNe hty2
              have haddr : addResource st.resTbl r g.name =
                  (false, st.resTbl,
                   [kRefineResource ++ r.resClass.name ++ " for " ++
                    r.globalName]) := by
                simp [addResource, hlk, hpr, hty]
              have hgs : gstep st g =
                  { st with
                    diags := st.diags ++
                        [kRefineResource ++ r.resClass.name ++ " for " ++
                          r.globalName],
                    ok := false } := by
                simp [gstep, hname, hvmT, hres, haddr]
              have hcm : conflictMsg p g =
                  some (kRefineResource ++ r.resClass.name ++ " for " ++
                    r.globalName) := by
                simp [conflictMsg, hmF, hres, hfr, hty2]
              have hsA : succAt p g = false := by
                simp [succAt, hseen, hres, hfr, hb]
              rw [hgs, hcm]
              exact ⟨rfl, by simp,
                seen_invar_mem p g st.newGlobals h1 hseen,
                vmapInv_keep S p g st.vmap hfun hgS h2
                  (fun hc => absurd hc (by simp [hsA])),
                fun rn => by
                  rw [firstRes_append_hit p g r r0 hres hfr rn]; exact h3 rn⟩
  · -- fresh name: create the global (and map it, whatever the merge says)
    have hseenF : seenName p g.name = false := by
      cases hsb : seenName p g.name with
      | false => rfl
      | true => exact absurd ((h1 _).mpr hsb) hname
    have hmF : mappedIn p g = false :=
      mappedIn_false_of_fresh S p g hfun hgS hpS hseenF
    have hsucc : succAt p g = true := by
      simp [succAt, hseenF]
    rcases hres : g.res with _ | r
    · have hgs : gstep st g =
          { st with newGlobals := g.name :: st.newGlobals,
                    vmap := g.gvId :: st.vmap } := by
        simp [gstep, hname, hres]
      have hcm : conflictMsg p g = none := by
        simp [conflictMsg, hmF, hres, hseenF]
      rw [hgs, hcm]
      exact ⟨by simp, by simp, seen_invar_cons p g st.newGlobals h1,
        vmapInv_add S p g st.vmap hfun hgS h2 hsucc,
        fun rn => by rw [firstRes_append_res_none p g hres rn]; exact h3 rn⟩
    · have hres3 : (lookupS r.globalName st.resTbl).map Prod.fst =
          firstRes p r.globalName := h3 r.globalName
      rcases hfr : firstRes p r.globalName with _ | r0
      · rw [hfr] at hres3
        have hlk : lookupS r.globalName st.resTbl = none :=
          Option.map_eq_none'.mp hres3
        have haddr : addResource st.resTbl r g.name =
            (true, (r.globalName, r, g.name) :: st.resTbl, []) := by
          simp [addResource, hlk]
        have hgs : gstep st g =
            { st with newGlobals := g.name :: st.newGlobals,
                      vmap := g.gvId :: st.vmap,
                      resTbl := (r.globalName, r, g.name) :: st.resTbl } := by
          simp [gstep, hname, hres, haddr]
        have hcm : conflictMsg p g = none := by
          simp [conflictMsg, hmF, hres, hfr]
        rw [hgs, hcm]
        refine ⟨by simp, by simp, seen_invar_cons p g st.newGlobals h1,
          vmapInv_add S p g st.vmap hfun hgS h2 hsucc, ?_⟩
        intro rn
        rw [firstRes_append_fresh p g r hres hfr rn]
        by_cases hrn : r.globalName = rn
        · rw [lookupS_cons, if_pos hrn, if_pos hrn]; rfl
        · rw [lookupS_cons, if_neg hrn, if_neg hrn]
          exact h3 rn
      · rw [hfr] at hres3
        rcases hlk : lookupS r.globalName st.resTbl with _ | pr
        · rw [hlk] at hres3; exact absurd hres3 (by simp)
        · rw [hlk] at hres3
          have hpr : pr.1 = r0 := by simpa using hres3
          by_cases hty : r.symType = r0.symType
          · have haddr : addResource st.resTbl r g.name =
                (true, st.resTbl, []) := by
              simp [addResource, hlk, hpr, hty]
            have hgs : gstep st g =
                { st with newGlobals := g.name :: st.newGlobals,
                          vmap := g.gvId :: st.vmap } := by
              simp [gstep, hname, hres, haddr]
            have hcm : conflictMsg p g = none := by
              simp [conflictMsg, hmF, hres, hfr, hty]
            rw [hgs, hcm]
            exact ⟨by simp, by simp, seen_invar_cons p g st.newGlobals h1,
              vmapInv_add S p g st.vmap hfun hgS h2 hsucc,
              fun rn => by
                rw [firstRes_append_hit p g r r0 hres hfr rn]; exact h3 rn⟩
          · have hty2 : ¬ r0.symType = r.symType := fun he => hty he.symm
            have haddr : addResource st.resTbl r g.name =
                (false, st.resTbl,
                 [kRefineResource ++ r.resClass.name ++ " for " ++
                  r.globalName]) := by
              simp [addResource, hlk, hpr, hty]
            have hgs : gstep st g =
                { st with
                  newGlobals := g.name :: st.newGlobals,
                  vmap := g.gvId :: st.vmap,
                  diags := st.diags ++
                      [kRefineResource ++ r.resClass.name ++ " for " ++
                        r.globalName],
                  ok := st.ok && false } := by
              simp [gstep, hname, hres, haddr]
            have hcm : conflictMsg p g =
                some (kRefineResource ++ r.resClass.name ++ " for " ++
                  r.globalName) := by
              simp [conflictMsg, hmF, hres, hfr, hty2]
            rw [hgs, hcm]
            exact ⟨rfl, by simp, seen_invar_cons p g st.newGlobals h1,
              vmapInv_add S p g st.vmap hfun hgS h2 hsucc,
              fun rn => by
                rw [firstRes_append_hit p g r r0 hres hfr rn]; exact h3 rn⟩

theorem gfold_spec :
    ∀ (gvs S p : List GVInfo) (st : GState),
    (∀ g1 ∈ S, ∀ g2 ∈ S, g1.gvId = g2.gvId → g1 = g2) →
    (∀ x ∈ p, x ∈ S) →
    (∀ x ∈ gvs, x ∈ S) →
    (∀ n, n ∈ st.newGlobals ↔ seenName p n = true) →
    (∀ g0 ∈ S, (g0.gvId ∈ st.vmap ↔ mappedIn p g0 = true)) →
    (∀ rn, (lookupS rn st.resTbl).map Prod.fst = firstRes p rn) →
    ((gvs.foldl gstep st).diags = st.diags ++ conflictMsgs p gvs) ∧
    ((gvs.foldl gstep st).ok = (st.ok && (conflictMsgs p gvs).isEmpty)) := by
  intro gvs
  induction gvs with
  | nil => intro S p st hfun hpS hgvS h1 h2 h3; simp [conflictMsgs]
  | cons g rest ih =>
    intro S p st hfun hpS hgvS h1 h2 h3
    have hgS : g ∈ S := hgvS g (List.mem_cons_self g rest)
    have hstep := gstep_spec S p st g hfun hgS hpS h1 h2 h3
    have hpS2 : ∀ x ∈ p ++ [g], x ∈ S := by
      intro x hx
      rcases List.mem_append.mp hx with h | h
      · exact hpS x h
      · rw [List.mem_singleton.mp h]
        exact hgS
    have hrec := ih S (p ++ [g]) (gstep st g) hfun hpS2
      (fun x hx => hgvS x (List.mem_cons_of_mem _ hx))
      hstep.2.2.1 hstep.2.2.2.1 hstep.2.2.2.2
    have hcms : conflictMsgs p (g :: rest) =
        (conflictMsg p g).toList ++ conflictMsgs (p ++ [g]) rest := rfl
    constructor
    · rw [List.foldl_cons, hrec.1, hstep.1, hcms, List.append_assoc]
    · rw [List.foldl_cons, hrec.2, hstep.2.1, hcms, listIsEmptyAppend,
        Bool.and_assoc]

theorem processGlobals_spec (defs : List FuncDef)
    (h : ∀ g1 ∈ allGVs defs, ∀ g2 ∈ allGVs defs, g1.gvId = g2.gvId → g1 = g2) :
    ((processGlobals defs).diags = conflictMsgs [] (allGVs defs)) ∧
    ((processGlobals defs).ok = (conflictMsgs [] (allGVs defs)).isEmpty) := by
  have hg := gfold_spec (allGVs defs) (allGVs defs) [] ⟨[], [], [], [], true⟩
    h
    (by intro x hx; cases hx)
    (fun x hx => hx)
    (by intro n; simp [seenName])
    (by intro g0 _; simp [mappedIn, mappedFrom])
    (by intro rn; simp [lookupS, firstRes])
  unfold processGlobals
  exact ⟨by rw [hg.1]; simp, by rw [hg.2]; simp⟩

/-!  Claim C5: global and resource conflicts are collected; all other
errors short-circuit.  -/

/-- Claim C5: within one link, the diagnostics of the add-global phase are
exactly the redefinition and resource-conflict messages of every conflicting
global occurrence (computed from the processed prefix, with occurrences of
an already-mapped global object skipped, mirroring the vmap test of line
513), and the link returns no module precisely when at least one such
conflict exists; whereas missing entry properties, an invalid profile, a
profile mismatch, and an unresolved symbol in the closure walk each abort
immediately with that single diagnostic.  The only assumption is pointer
identity: occurrences with the same global-object identity carry the same
name and resource descriptor. -/
theorem link_collects_global_errors :
    (∀ (smKind : String → ShaderKind) (inp : LinkInput) (k : ShaderKind),
      inp.entryProps = some k → k ≠ ShaderKind.Library →
      k ≠ ShaderKind.Invalid → smKind inp.profile = k →
      (∀ g1 ∈ allGVs inp.defs, ∀ g2 ∈ allGVs inp.defs,
        g1.gvId = g2.gvId → g1 = g2) →
      ((linkJob smKind inp).2 = conflictMsgs [] (allGVs inp.defs) ∧
       ((linkJob smKind inp).1 = none ↔
         conflictMsgs [] (allGVs inp.defs) ≠ []))) ∧
    (∀ (smKind : String → ShaderKind) (inp : LinkInput),
      inp.entryProps = none →
      linkJob smKind inp = (none, [kNoEntryProps ++ inp.entryName])) ∧
    (∀ (smKind : String → ShaderKind) (inp : LinkInput) (k : ShaderKind),
      inp.entryProps = some k →
      (k = ShaderKind.Library ∨ k = ShaderKind.Invalid) →
      linkJob smKind inp = (none, [inp.profile ++ kInvalidProfile])) ∧
    (∀ (smKind : String → ShaderKind) (inp : LinkInput) (k : ShaderKind),
      inp.entryProps = some k → k ≠ ShaderKind.Library →
      k ≠ ShaderKind.Invalid → smKind inp.profile ≠ k →
      linkJob smKind inp =
        (none, [kShaderKindMismatch ++ inp.profile ++ " and " ++ k.name])) ∧
    (∀ (reg : String → Option (List String)) (isOp : String → Bool)
       (sched : List String → List String → List String)
       (fuel : Nat) (visited t ops : List String) (n : String),
      reg n = none → n ∉ visited →
      closureGo reg isOp sched (fuel + 1) visited (n :: t) ops =
        ClosureResult.undef n) := by
  refine ⟨?_, ?_, ?_, ?_, ?_⟩
  · intro smKind inp k hk h1 h2 h3 hnd
    have hps := processGlobals_spec inp.defs hnd
    have hne : ¬ (k = ShaderKind.Library ∨ k = ShaderKind.Invalid) :=
      fun hc => hc.elim h1 h2
    cases hok : (processGlobals inp.defs).ok with
    | true =>
      have hisEmpty : (conflictMsgs [] (allGVs inp.defs)).isEmpty = true := by
        rw [← hps.2]; exact hok
      have hcm : conflictMsgs [] (allGVs inp.defs) = [] := by
        cases hx : conflictMsgs [] (allGVs inp.defs)
        · rfl
        · rw [hx] at hisEmpty; cases hisEmpty
      constructor
      · simp [linkJob, hk, hne, h3, hok, hps.1]
      · simp [linkJob, hk, hne, h3, hok, hcm]
    | false =>
      have hisEmpty : (conflictMsgs [] (allGVs inp.defs)).isEmpty = false := by
        rw [← hps.2]; exact hok
      have hcm : conflictMsgs [] (allGVs inp.defs) ≠ [] := by
        intro hx
        rw [hx] at hisEmpty
        cases hisEmpty
      constructor
      · simp [linkJob, hk, hne, h3, hok, hps.1]
      · simp [linkJob, hk, hne, h3, hok, hcm]
  · intro smKind inp hp
    simp [linkJob, hp]
  · intro smKind inp k hp hlib
    simp [linkJob, hp, hlib]
  · intro smKind inp k hp h1 h2 h3
    simp [linkJob, hp, h1, h2, h3]
  · intro reg isOp sched fuel visited t ops n hreg hnv
    simp [closureGo, hnv, hreg]

/-- Witness for `link_collects_global_errors`: a link with one global
redefinition and one resource-shape conflict reports both diagnostics and
fails; a link with a vertex entry and pixel profile fails with the single
mismatch diagnostic. -/
theorem link_collects_global_errors_witness :
    ((linkJob cPixelSM c5inp).2 = conflictMsgs [] (allGVs c5inp.defs) ∧
     ((linkJob cPixelSM c5inp).1 = none ↔
       conflictMsgs [] (allGVs c5inp.defs) ≠ [])) ∧
    (linkJob cPixelSM c8inp =
      (none, [kShaderKindMismatch ++ c8inp.profile ++ " and " ++
        ShaderKind.name ShaderKind.Vertex])) :=
  ⟨link_collects_global_errors.1 cPixelSM c5inp ShaderKind.Pixel rfl
     (by decide) (by decide) rfl (by decide),
   link_collects_global_errors.2.2.2.1 cPixelSM c8inp ShaderKind.Vertex rfl
     (by decide) (by decide) (by decide)⟩

/-!  Claim C1: the closure walk computes exactly the reachable set.  -/

theorem closureFinal_spec
    (reg : String → Option (List String)) (isOp : String → Bool) (E : String)
    (visited ops : List String)
    (hv : ∀ n ∈ visited, Reachable reg isOp E n)
    (hE : E ∈ visited)
    (hcl : ∀ a ∈ visited, ∀ cs, reg a = some cs → ∀ b ∈ cs,
        (isOp b = false → b ∈ visited) ∧ (isOp b = true → b ∈ ops))
    (hops : ∀ n ∈ ops, isOp n = true ∧
        ∃ a cs, a ∈ visited ∧ reg a = some cs ∧ n ∈ cs) :
    ((∀ n, n ∈ visited ↔ Reachable reg isOp E n) ∧
     (∀ n, n ∈ ops ↔ (isOp n = true ∧
        ∃ a cs, Reachable reg isOp E a ∧ reg a = some cs ∧ n ∈ cs))) := by
  have hcomp : ∀ n, Reachable reg isOp E n → n ∈ visited := by
    intro n hr
    induction hr with
    | refl => exact hE
    | step a b cs _ hcs hb hop iha =>
      exact (hcl a iha cs hcs b hb).1 hop
  constructor
  · exact fun n => ⟨fun h => hv n h, hcomp n⟩
  · intro n
    constructor
    · intro h
      rcases hops n h with ⟨hop, a, cs, ha, hcs, hn⟩
      exact ⟨hop, a, cs, hv a ha, hcs, hn⟩
    · rintro ⟨hop, a, cs, hra, hcs, hn⟩
      exact (hcl a (hcomp a hra) cs hcs n hn).2 hop

theorem closureGo_ok_spec
    (reg : String → Option (List String)) (isOp : String → Bool)
    (sched : List String → List String → List String)
    (hsched : ∀ xs ys a, a ∈ sched xs ys ↔ (a ∈ xs ∨ a ∈ ys)) (E : String) :
    ∀ (fuel : Nat) (visited work ops v o : List String),
    closureGo reg isOp sched fuel visited work ops = ClosureResult.ok v o →
    (∀ n ∈ visited, Reachable reg isOp E n) →
    (∀ n ∈ work, Reachable reg isOp E n) →
    (E ∈ visited ∨ E ∈ work) →
    (∀ a ∈ visited, ∀ cs, reg a = some cs → ∀ b ∈ cs,
        (isOp b = false → (b ∈ visited ∨ b ∈ work)) ∧
        (isOp b = true → b ∈ ops)) →
    (∀ n ∈ ops, isOp n = true ∧
        ∃ a cs, a ∈ visited ∧ reg a = some cs ∧ n ∈ cs) →
    ((∀ n, n ∈ v ↔ Reachable reg isOp E n) ∧
     (∀ n, n ∈ o ↔ (isOp n = true ∧
        ∃ a cs, Reachable reg isOp E a ∧ reg a = some cs ∧ n ∈ cs))) := by
  intro fuel
  induction fuel with
  | zero =>
    intro visited work ops v o h hv hw hE hcl hops
    cases work with
    | nil =>
      have h2 : ClosureResult.ok visited ops = ClosureResult.ok v o := h
      injection h2 with hv2 ho2
      subst hv2; subst ho2
      exact closureFinal_spec reg isOp E visited ops hv
        (hE.elim id (fun hc => absurd hc (List.not_mem_nil E)))
        (fun a ha cs hcs b hb =>
          ⟨fun hop => ((hcl a ha cs hcs b hb).1 hop).elim id
             (fun hc => absurd hc (List.not_mem_nil b)),
           (hcl a ha cs hcs b hb).2⟩)
        hops
    | cons n t => cases h
  | succ fuel ih =>
    intro visited work ops v o h hv hw hE hcl hops
    cases work with
    | nil =>
      have h2 : ClosureResult.ok visited ops = ClosureResult.ok v o := h
      injection h2 with hv2 ho2
      subst hv2; subst ho2
      exact closureFinal_spec reg isOp E visited ops hv
        (hE.elim id (fun hc => absurd hc (List.not_mem_nil E)))
        (fun a ha cs hcs b hb =>
          ⟨fun hop => ((hcl a ha cs hcs b hb).1 hop).elim id
             (fun hc => absurd hc (List.not_mem_nil b)),
           (hcl a ha cs hcs b hb).2⟩)
        hops
    | cons n t =>
      simp only [closureGo] at h
      by_cases hn : n ∈ visited
      · rw [if_pos hn] at h
        refine ih visited t ops v o h hv
          (fun m hm => hw m (List.mem_cons_of_mem _ hm)) ?_ ?_ hops
        · rcases hE with h1 | h2
          · exact Or.inl h1
          · rcases List.mem_cons.mp h2 with rfl | h3
            · exact Or.inl hn
            · exact Or.inr h3
        · intro a ha cs hcs b hb
          refine ⟨?_, (hcl a ha cs hcs b hb).2⟩
          intro hop
          rcases (hcl a ha cs hcs b hb).1 hop with h1 | h2
          · exact Or.inl h1
          · rcases List.mem_cons.mp h2 with rfl | h3
            · exact Or.inl hn
            · exact Or.inr h3
      · rw [if_neg hn] at h
        rcases hreg : reg n with _ | cs
        · rw [hreg] at h; cases h
        · rw [hreg] at h
          have hrn : Reachable reg isOp E n := hw n (List.mem_cons_self n t)
          refine ih (n :: visited)
            (sched (cs.filter (fun c => isOp c = false)) t)
            ((cs.filter (fun c => isOp c)).foldl insertU ops) v o h ?_ ?_ ?_ ?_ ?_
          · intro m hm
            rcases List.mem_cons.mp hm with rfl | h2
            · exact hrn
            · exact hv m h2
          · intro m hm
            rcases (hsched _ _ m).mp hm with h2 | h2
            · have h3 := List.mem_filter.mp h2
              have hop : isOp m = false := by simpa using h3.2
              exact Reachable.step n m cs hrn hreg h3.1 hop
            · exact hw m (List.mem_cons_of_mem _ h2)
          · rcases hE with h1 | h2
            · exact Or.inl (List.mem_cons_of_mem _ h1)
            · rcases List.mem_cons.mp h2 with rfl | h3
              · exact Or.inl (List.mem_cons_self _ _)
              · exact Or.inr ((hsched _ _ _).mpr (Or.inr h3))
          · intro a ha cs0 hcs0 b hb
            rcases List.mem_cons.mp ha with rfl | ha2
            · have hcs1 : cs0 = cs := by
                rw [hreg] at hcs0
                exact (Option.some.inj hcs0).symm
              subst hcs1
              constructor
              · intro hop
                refine Or.inr ((hsched _ _ b).mpr (Or.inl ?_))
                exact List.mem_filter.mpr ⟨hb, by simpa using hop⟩
              · intro hop
                exact (mem_foldl_insertU _ _ b).mpr
                  (Or.inr (List.mem_filter.mpr ⟨hb, hop⟩))
            · constructor
              · intro hop
                rcases (hcl a ha2 cs0 hcs0 b hb).1 hop with h1 | h2
                · exact Or.inl (List.mem_cons_of_mem _ h1)
                · rcases List.mem_cons.mp h2 with rfl | h3
                  · exact Or.inl (List.mem_cons_self b visited)
                  · exact Or.inr ((hsched _ _ b).mpr (Or.inr h3))
              · intro hop
                exact (mem_foldl_insertU _ _ b).mpr
                  (Or.inl ((hcl a ha2 cs0 hcs0 b hb).2 hop))
          · intro m hm
            rcases (mem_foldl_insertU _ _ m).mp hm with h2 | h2
            · rcases hops m h2 with ⟨hop, a, cs0, ha, hcs0, hmn⟩
              exact ⟨hop, a, cs0, List.mem_cons_of_mem _ ha, hcs0, hmn⟩
            · have h3 := List.mem_filter.mp h2
              exact ⟨h3.2, n, cs, List.mem_cons_self n visited, hreg, h3.1⟩

/-- Claim C1: whenever the transitive-closure walk of `DxilLinkerImpl::Link`
completes (for any queue discipline — the code's LIFO `pop_back_val` being
one instance), the collected function set is exactly the set of names
reachable from the entry along call-set edges that do not cross an
intrinsic, the intrinsics-to-declare set is exactly the set of intrinsic
callees of reachable functions, and any two completing runs, under any queue
disciplines and fuel, agree on both sets — ordering is unobservable because
the visited set collapses duplicates. -/
theorem link_closure_exact :
    ∀ (reg : String → Option (List String)) (isOp : String → Bool)
      (sched : List String → List String → List String),
    (∀ xs ys a, a ∈ sched xs ys ↔ (a ∈ xs ∨ a ∈ ys)) →
    ∀ (fuel : Nat) (E : String) (v o : List String),
    closureGo reg isOp sched fuel [] [E] [] = ClosureResult.ok v o →
    ((∀ n, n ∈ v ↔ Reachable reg isOp E n) ∧
     (∀ n, n ∈ o ↔ (isOp n = true ∧
        ∃ a cs, Reachable reg isOp E a ∧ reg a = some cs ∧ n ∈ cs)) ∧
     (∀ (sched2 : List String → List String → List String),
       (∀ xs ys a, a ∈ sched2 xs ys ↔ (a ∈ xs ∨ a ∈ ys)) →
       ∀ (fuel2 : Nat) (v2 o2 : List String),
       closureGo reg isOp sched2 fuel2 [] [E] [] = ClosureResult.ok v2 o2 →
       ((∀ n, n ∈ v2 ↔ n ∈ v) ∧ (∀ n, n ∈ o2 ↔ n ∈ o)))) := by
  intro reg isOp sched hsched fuel E v o h
  have hbase := closureGo_ok_spec reg isOp sched hsched E fuel [] [E] [] v o h
    (fun n hn => absurd hn (List.not_mem_nil n))
    (fun n hn => by
      rcases List.mem_cons.mp hn with rfl | h2
      · exact Reachable.refl
      · exact absurd h2 (List.not_mem_nil n))
    (Or.inr (List.mem_cons_self E []))
    (fun a ha => absurd ha (List.not_mem_nil a))
    (fun n hn => absurd hn (List.not_mem_nil n))
  refine ⟨hbase.1, hbase.2, ?_⟩
  intro sched2 hsched2 fuel2 v2 o2 h2
  have hrun2 := closureGo_ok_spec reg isOp sched2 hsched2 E fuel2 [] [E] [] v2 o2 h2
    (fun n hn => absurd hn (List.not_mem_nil n))
    (fun n hn => by
      rcases List.mem_cons.mp hn with rfl | h3
      · exact Reachable.refl
      · exact absurd h3 (List.not_mem_nil n))
    (Or.inr (List.mem_cons_self E []))
    (fun a ha => absurd ha (List.not_mem_nil a))
    (fun n hn => absurd hn (List.not_mem_nil n))
  constructor
  · intro n
    rw [hrun2.1 n, hbase.1 n]
  · intro n
    rw [hrun2.2 n, hbase.2 n]

/-- Witness for `link_closure_exact` at the spec's closure scenario:
`main` calls `dx.op.sqrt` (an intrinsic) and `helper`; the walk collects
exactly `helper` and `main` and declares exactly `dx.op.sqrt`. -/
theorem link_closure_exact_witness :
    (∀ n, n ∈ ["helper", "main"] ↔ Reachable c1reg c1isOp "main" n) ∧
    (∀ n, n ∈ ["dx.op.sqrt"] ↔ (c1isOp n = true ∧
       ∃ a cs, Reachable c1reg c1isOp "main" a ∧ c1reg a = some cs ∧
         n ∈ cs)) := by
  have h := link_closure_exact c1reg c1isOp lifoSched
    (by intro xs ys a; exact List.mem_append) 10 "main"
    ["helper", "main"] ["dx.op.sqrt"] (by decide)
  exact ⟨h.1, h.2.1⟩

end DxilLink
